import Mathlib

/-!
Verification of the LC-2K toolchain: a two-pass assembler (`asemble.py`) and a
fetch-decode-execute simulator (`simulate.py`).  The definitions below are a
shallow embedding of the two Python modules; theorems about the specified
behaviour follow after the definitions.

Modelling conventions:
* Python unbounded `int` is modelled by `Nat` where the source value is
  provably nonnegative and by `Int` otherwise.
* Python `x & (2^k - 1)` applied to a possibly negative `int` equals the
  nonnegative residue of `x` modulo `2^k`; it is modelled by `Int.emod`
  followed by `Int.toNat`.  Applied to a nonnegative value it is modelled by
  `Nat.land` (written `&&&`), exactly as in the source.
* Python `dict` values (the symbol table, with unique keys) are modelled by
  an association list with `List.lookup`; insertion appends at the end,
  matching the insertion order of a `dict`.
* `raise AsmError(...)` is modelled by `Except.error`; `sys.exit` inside the
  simulator dispatch is modelled by the `StepResult` outcome type.
-/

set_option maxHeartbeats 1000000

namespace MicroSim

/-! ### Shared constants (`asemble.py` lines 44-59, `simulate.py` lines 15-21) -/

def MAX_16 : Nat := 1 <<< 16

def MASK_32 : Nat := 0xFFFFFFFF

def MEM_SIZE : Nat := 1 <<< 16

def STEP_LIMIT : Nat := 1000000

/-! ### Assembler data model (`asemble.py`) -/

/-- A pre-parsed line of assembly (class `Line`): 0-based source line index,
optional label, opcode token, operand tokens and the raw source text. -/
structure Line where
  lineno : Nat
  label : Option String
  opcode : String
  args : List String
  raw : String
deriving DecidableEq

/-- The payload of the Python `AsmError` exception: the 0-based line index
passed to the constructor (`-1` when the raising helper has no line context),
the message, and the offending source text (`""` when absent).  The rendered
message shows `lineno + 1` as the 1-based line number. -/
structure AsmError where
  lineno : Int
  msg : String
  line : String
deriving DecidableEq

/-- The opcode table `OPCODES` (mnemonic to 3-bit value). -/
def OPCODES : List (String × Nat) :=
  [("add", 0), ("nand", 1), ("lw", 2), ("sw", 3),
   ("beq", 4), ("jalr", 5), ("halt", 6), ("noop", 7)]

/-- Python `str.isdigit` over an explicit character list: nonempty and all
characters are decimal digits. -/
def pyIsDigitChars (cs : List Char) : Bool :=
  !cs.isEmpty && cs.all Char.isDigit

/-- Python `token.isdigit()`. -/
def pyIsDigit (s : String) : Bool :=
  pyIsDigitChars s.data

/-- Decimal value of a digit string, as computed by Python `int` on a string
of digits. -/
def digitsVal (cs : List Char) : Nat :=
  cs.foldl (fun acc c => 10 * acc + (c.toNat - 48)) 0

/-- The hyphen-minus character used by negative decimal literals. -/
def dashChar : Char := Char.ofNat 45

/-- Python `int(token)` for tokens that passed the numeric test of
`resolve_value`: an optional leading minus sign followed by digits. -/
def pyInt (s : String) : Int :=
  if s.data.head? = some dashChar then -(digitsVal (s.data.drop 1) : Int)
  else (digitsVal s.data : Int)

/-- `int_reg` (`asemble.py` lines 238-245): parse a register token, requiring
a numeric token whose value lies in `[0, 8)`.  Note both failure branches
raise `AsmError(-1, msg)` with the default empty line text. -/
def int_reg (token : String) : Except AsmError Nat :=
  if !pyIsDigit token then
    .error ⟨-1, "Register id must be numeric: " ++ token, ""⟩
  else
    let reg := digitsVal token.data
    if reg < 8 then .ok reg
    else .error ⟨-1, "Register id out of range 0..7: " ++ toString reg, ""⟩

/-- `resolve_value` (`asemble.py` lines 223-229): a decimal literal (optional
leading minus) parses to its value; otherwise, only when `allow_label` is set,
the token is looked up in the symbol table; otherwise the undefined-symbol
error is raised with `AsmError(-1, msg)` and the default empty line text. -/
def resolve_value (token : String) (symbols : List (String × Nat))
    (allow_label : Bool := false) : Except AsmError Int :=
  if pyIsDigit token ||
      (token.data.head? = some dashChar && pyIsDigitChars (token.data.drop 1)) then
    .ok (pyInt token)
  else if allow_label && (List.lookup token symbols).isSome then
    .ok (((List.lookup token symbols).getD 0 : Nat) : Int)
  else
    .error ⟨-1, "Undefined symbol " ++ token, ""⟩

/-- `check_argc` (`asemble.py` lines 232-235): require an exact operand
count, raising with the line context otherwise. -/
def check_argc (line : Line) (expected : Nat) : Except AsmError Unit :=
  if line.args.length = expected then .ok ()
  else
    .error ⟨(line.lineno : Int),
      "Expected " ++ toString expected ++ " arguments, got " ++
        toString line.args.length, line.raw⟩

/-- `build_symbol_table` (`asemble.py` lines 107-114), written with the
enumeration counter explicit: each labelled line inserts `label -> pc`;
a label already present raises the duplicate-label error. -/
def buildSymsFrom : Nat → List (String × Nat) → List Line →
    Except AsmError (List (String × Nat))
  | _, symbols, [] => .ok symbols
  | pc, symbols, l :: ls =>
    match l.label with
    | none => buildSymsFrom (pc + 1) symbols ls
    | some lab =>
      if (List.lookup lab symbols).isSome then
        .error ⟨(l.lineno : Int), "Duplicate label " ++ lab, l.raw⟩
      else
        buildSymsFrom (pc + 1) (symbols ++ [(lab, pc)]) ls

/-- Pass 1 entry point: `build_symbol_table(lines)`. -/
def build_symbol_table (lines : List Line) :
    Except AsmError (List (String × Nat)) :=
  buildSymsFrom 0 [] lines

/-- The field-packing expression shared by the R and I format branches of
`encode` (`asemble.py` lines 142, 152, 167): for the R format `low` is the
destination register (NOT shifted), for the I format it is the already masked
16-bit offset field. -/
def packR (opc rA rB low : Nat) : Nat :=
  (opc <<< 22) ||| (rA <<< 19) ||| (rB <<< 16) ||| low

/-- The body of the `encode` loop (`asemble.py` lines 121-181) for one line at
word address `pc`.  Instruction words are masked with `MASK_32` at the final
append; the `.fill` branch appends the resolved value raw (the Python loop
`continue`s before the masked append).  Python `offset & 0xFFFF` on a possibly
negative offset is `(offset.emod 0x10000).toNat`. -/
def encodeLine (pc : Nat) (line : Line) (symbols : List (String × Nat)) :
    Except AsmError Int :=
  if line.opcode = ".fill" then
    match check_argc line 1 with
    | .error e => .error e
    | .ok _ =>
      match resolve_value (line.args.getD 0 "") symbols with
      | .error e => .error e
      | .ok v => .ok v
  else
    match List.lookup line.opcode OPCODES with
    | none => .error ⟨(line.lineno : Int), "Unknown opcode " ++ line.opcode, line.raw⟩
    | some opc_val =>
      if line.opcode = "add" ∨ line.opcode = "nand" then
        match check_argc line 3 with
        | .error e => .error e
        | .ok _ =>
          match int_reg (line.args.getD 0 "") with
          | .error e => .error e
          | .ok rA =>
            match int_reg (line.args.getD 1 "") with
            | .error e => .error e
            | .ok rB =>
              match int_reg (line.args.getD 2 "") with
              | .error e => .error e
              | .ok rD => .ok ((packR opc_val rA rB rD &&& MASK_32 : Nat) : Int)
      else if line.opcode = "lw" ∨ line.opcode = "sw" then
        match check_argc line 3 with
        | .error e => .error e
        | .ok _ =>
          match int_reg (line.args.getD 0 "") with
          | .error e => .error e
          | .ok rA =>
            match int_reg (line.args.getD 1 "") with
            | .error e => .error e
            | .ok rB =>
              match resolve_value (line.args.getD 2 "") symbols true with
              | .error e => .error e
              | .ok offset =>
                if -((MAX_16 : Int) / 2) ≤ offset ∧ offset < (MAX_16 : Int) / 2 then
                  .ok ((packR opc_val rA rB (offset.emod 0x10000).toNat &&& MASK_32 : Nat) : Int)
                else
                  .error ⟨(line.lineno : Int), "offset out of 16-bit range", line.raw⟩
      else if line.opcode = "beq" then
        match check_argc line 3 with
        | .error e => .error e
        | .ok _ =>
          match int_reg (line.args.getD 0 "") with
          | .error e => .error e
          | .ok rA =>
            match int_reg (line.args.getD 1 "") with
            | .error e => .error e
            | .ok rB =>
              match
                (if (List.lookup (line.args.getD 2 "") symbols).isSome then
                  .ok ((((List.lookup (line.args.getD 2 "") symbols).getD 0 : Nat) : Int) -
                    ((pc : Int) + 1))
                else resolve_value (line.args.getD 2 "") symbols) with
              | .error e => .error e
              | .ok offset =>
                if -((MAX_16 : Int) / 2) ≤ offset ∧ offset < (MAX_16 : Int) / 2 then
                  .ok ((packR opc_val rA rB (offset.emod 0x10000).toNat &&& MASK_32 : Nat) : Int)
                else
                  .error ⟨(line.lineno : Int), "branch offset out of 16-bit range", line.raw⟩
      else if line.opcode = "jalr" then
        match check_argc line 2 with
        | .error e => .error e
        | .ok _ =>
          match int_reg (line.args.getD 0 "") with
          | .error e => .error e
          | .ok rA =>
            match int_reg (line.args.getD 1 "") with
            | .error e => .error e
            | .ok rB =>
              .ok ((((opc_val <<< 22) ||| (rA <<< 19) ||| (rB <<< 16)) &&& MASK_32 : Nat) : Int)
      else
        match check_argc line 0 with
        | .error e => .error e
        | .ok _ => .ok (((opc_val <<< 22) &&& MASK_32 : Nat) : Int)

/-- The `encode` loop (`asemble.py` lines 121-181) from word address `pc`
onward: encode each line in order, aborting at the first error. -/
def encodeFrom : Nat → List Line → List (String × Nat) → Except AsmError (List Int)
  | _, [], _ => .ok []
  | pc, l :: ls, symbols =>
    match encodeLine pc l symbols with
    | .error e => .error e
    | .ok w =>
      match encodeFrom (pc + 1) ls symbols with
      | .error e => .error e
      | .ok ws => .ok (w :: ws)

/-- Pass 2 entry point: `encode(lines, symbols)`. -/
def encode (lines : List Line) (symbols : List (String × Nat)) :
    Except AsmError (List Int) :=
  encodeFrom 0 lines symbols

/-! ### Simulator (`simulate.py`) -/

/-- `sext16` (`simulate.py` lines 24-26): sign-extend a 16-bit value,
`(x & 0x7FFF) - (x & 0x8000)`. -/
def sext16 (x : Nat) : Int :=
  ((x &&& 0x7FFF : Nat) : Int) - ((x &&& 0x8000 : Nat) : Int)

/-- `load_mc` (`simulate.py` lines 28-33): mask every input word to 32 bits
(Python `int(line) & MASK_32`, i.e. the residue modulo `2 ^ 32`), fail when
the program exceeds the memory capacity, and pad with zero words. -/
def load_mc (ws : List Int) : Option (List Nat) :=
  let words := ws.map (fun w => (w.emod 0x100000000).toNat)
  if words.length > MEM_SIZE then none
  else some (words ++ List.replicate (MEM_SIZE - words.length) 0)

/-- Class `State` (`simulate.py` lines 36-43), without the I/O log handle and
trace flag, which carry no machine semantics. -/
structure State where
  mem : List Nat
  reg : List Nat
  pc : Nat
  steps : Nat
deriving DecidableEq

/-- Initial machine state built in `main` (`simulate.py` lines 126-128):
loaded memory, eight zero registers, `pc = 0`, `steps = 0`. -/
def init_state (mem : List Nat) : State :=
  ⟨mem, List.replicate 8 0, 0, 0⟩

/-- How a call to `step` returns: `cont` is a normal return of `step` (the
`while True` loop continues), `halted` is `sys.exit(0)` from `op_halt`
(success), `limit` is `sys.exit(1)` at the step limit (failure).  The two
terminal outcomes are distinct constructors, matching the distinct process
exit codes. -/
inductive StepResult where
  | cont : State → StepResult
  | halted : State → StepResult
  | limit : State → StepResult
deriving DecidableEq

/-- The machine state carried by a `StepResult`. -/
def StepResult.state : StepResult → State
  | .cont s => s
  | .halted s => s
  | .limit s => s

/-- Decoding of the opcode field (`simulate.py` line 99). -/
def decode_op (word : Nat) : Nat := (word >>> 22) &&& 0b111

/-- Decoding of the regA field (`simulate.py` line 100). -/
def decode_a (word : Nat) : Nat := (word >>> 19) &&& 0b111

/-- Decoding of the regB field (`simulate.py` line 101). -/
def decode_b (word : Nat) : Nat := (word >>> 16) &&& 0b111

/-- Decoding of the 16-bit immediate field (`simulate.py` line 102). -/
def decode_imm (word : Nat) : Nat := word &&& 0xFFFF

/-- Decoding of the destination-register field (`simulate.py` line 103). -/
def decode_dst (word : Nat) : Nat := word &&& 0b111

/-- `op_nand` value (`simulate.py` line 56): Python `~n & MASK_32` for the
nonnegative `n = reg[a] & reg[b]` is `(-n - 1) mod 2 ^ 32`. -/
def pyNand (x y : Nat) : Nat :=
  ((-((x &&& y : Nat) : Int) - 1).emod 0x100000000).toNat

/-- The handler dispatch `HANDLERS[op](s, a, b, imm, dst)` for the non-halt
opcodes (`simulate.py` lines 55-71, 89, 91-94), returning the mutated state
together with the handler return value (`True` means advance the pc).
Python list indexing `reg[i]` / `mem[i]` is modelled with
`List.getD`/`List.set`; the decoded indices are 3-bit so they are always in
range for the 8-register file, and the lw/sw/beq addresses are reduced
modulo `MEM_SIZE` exactly as the source `& (MEM_SIZE - 1)` does (via
`Int.emod` because `reg[a] + sext16(off)` and `pc + 1 + sext16(off)` may be
negative).  In `op_jalr` the pc assignment reads `reg[a]` after the write to
`reg[b]`, exactly as in the source. -/
def dispatch (s : State) (op a b imm dst : Nat) : State × Bool :=
  if op = 0 then
    ({ s with reg := s.reg.set dst ((s.reg.getD a 0 + s.reg.getD b 0) &&& MASK_32) }, true)
  else if op = 1 then
    ({ s with reg := s.reg.set dst (pyNand (s.reg.getD a 0) (s.reg.getD b 0)) }, true)
  else if op = 2 then
    let addr := (((s.reg.getD a 0 : Int) + sext16 imm).emod (MEM_SIZE : Int)).toNat
    ({ s with reg := s.reg.set b (s.mem.getD addr 0) }, true)
  else if op = 3 then
    let addr := (((s.reg.getD a 0 : Int) + sext16 imm).emod (MEM_SIZE : Int)).toNat
    ({ s with mem := s.mem.set addr (s.reg.getD b 0 &&& MASK_32) }, true)
  else if op = 4 then
    (if s.reg.getD a 0 = s.reg.getD b 0 then
      ({ s with pc := (((s.pc : Int) + 1 + sext16 imm).emod (MEM_SIZE : Int)).toNat }, false)
    else (s, true))
  else if op = 5 then
    (let reg2 := s.reg.set b ((s.pc + 1) &&& MASK_32)
     ({ s with reg := reg2, pc := reg2.getD a 0 &&& (MEM_SIZE - 1) }, false))
  else
    (s, true)

/-- The epilogue of `step` (`simulate.py` lines 107-114): advance the pc when
the handler returned `True`, force `reg[0] = 0`, increment the step counter,
and abort when the counter exceeds the step limit.  The three sequential
mutations touch disjoint fields, so they are written as one record. -/
def finish (s1 : State) (advance : Bool) : StepResult :=
  let s4 : State :=
    { mem := s1.mem
      reg := s1.reg.set 0 0
      pc := if advance then (s1.pc + 1) &&& (MEM_SIZE - 1) else s1.pc
      steps := s1.steps + 1 }
  if s4.steps > STEP_LIMIT then .limit s4 else .cont s4

/-- One call of `step` (`simulate.py` lines 97-114): fetch, decode, dispatch,
then the epilogue.  `op_halt` (lines 80-87) calls `sys.exit(0)` inside the
dispatch, before the `reg[0] = 0` reset and the step-count increment, which
is why the `halted` outcome returns the state unchanged. -/
def step (s : State) : StepResult :=
  let word := s.mem.getD s.pc 0
  let op := decode_op word
  if op = 6 then
    .halted s
  else
    let res := dispatch s op (decode_a word) (decode_b word) (decode_imm word)
      (decode_dst word)
    finish res.1 res.2

/-- The `while True: step(state)` loop of `main` (`simulate.py` lines
129-130), with explicit fuel: `Sum.inl` is a terminal outcome reached within
the given number of calls, `Sum.inr` means the fuel ran out first. -/
def run : Nat → State → StepResult ⊕ State
  | 0, s => .inr s
  | n + 1, s =>
    match step s with
    | .cont s2 => run n s2
    | .halted s2 => .inl (.halted s2)
    | .limit s2 => .inl (.limit s2)

/-- Machine-state well-formedness: full-size memory, an 8-entry register
file, an in-range program counter, and every register and memory word below
`2 ^ 32`. -/
def WF (s : State) : Prop :=
  s.mem.length = MEM_SIZE ∧ s.reg.length = 8 ∧ s.pc < MEM_SIZE ∧
    (∀ w ∈ s.reg, w < 2 ^ 32) ∧ (∀ w ∈ s.mem, w < 2 ^ 32)

/-- A label is defined on two different lines of the program. -/
def hasDupLabel (lines : List Line) : Prop :=
  ∃ (i j : Nat) (hi : i < lines.length) (hj : j < lines.length) (lab : String),
    i ≠ j ∧ (lines.get ⟨i, hi⟩).label = some lab ∧ (lines.get ⟨j, hj⟩).label = some lab

/-! ### Theorems -/

/-- Claim C1: for register operands `rA`, `rB`, `rD` each in `[0,7]` and any
3-bit opcode value (the `OPCODES` table maps `add` to `0` and `nand` to `1`),
the R-format word packed by the assembler as
`opcode <<< 22 ||| rA <<< 19 ||| rB <<< 16 ||| rD` (`packR`, with `destReg`
in bits 0-2, not shifted by 16) and masked to 32 bits decodes in the
simulator back to exactly the same opcode, regA, regB and destReg field
values. -/
theorem claim1_rformat_encode_decode (opc rA rB rD : Nat) (ho : opc < 8)
    (ha : rA < 8) (hb : rB < 8) (hd : rD < 8) :
    decode_op (packR opc rA rB rD &&& MASK_32) = opc ∧
    decode_a (packR opc rA rB rD &&& MASK_32) = rA ∧
    decode_b (packR opc rA rB rD &&& MASK_32) = rB ∧
    decode_dst (packR opc rA rB rD &&& MASK_32) = rD := by
  have key : ∀ o a b d : Fin 8,
      decode_op (packR o.val a.val b.val d.val &&& MASK_32) = o.val ∧
      decode_a (packR o.val a.val b.val d.val &&& MASK_32) = a.val ∧
      decode_b (packR o.val a.val b.val d.val &&& MASK_32) = b.val ∧
      decode_dst (packR o.val a.val b.val d.val &&& MASK_32) = d.val := by decide
  exact key ⟨opc, ho⟩ ⟨rA, ha⟩ ⟨rB, hb⟩ ⟨rD, hd⟩

/-- Witness for C1 at the `nand` opcode value and registers 2, 3, 4. -/
theorem claim1_rformat_encode_decode_witness :
    decode_op (packR 1 2 3 4 &&& MASK_32) = 1 ∧
    decode_a (packR 1 2 3 4 &&& MASK_32) = 2 ∧
    decode_b (packR 1 2 3 4 &&& MASK_32) = 3 ∧
    decode_dst (packR 1 2 3 4 &&& MASK_32) = 4 :=
  claim1_rformat_encode_decode 1 2 3 4 (by decide) (by decide) (by decide)
    (by decide)



theorem max16_half : ((MAX_16 : Nat) : Int) / 2 = 32768 := rfl

theorem masked_word_range (x : Nat) :
    0 ≤ ((x &&& MASK_32 : Nat) : Int) ∧ ((x &&& MASK_32 : Nat) : Int) < 2 ^ 32 := by
  have h1 : x &&& MASK_32 ≤ 0xFFFFFFFF := Nat.and_le_right
  constructor
  · exact Int.natCast_nonneg _
  · have h2 : (2 : Int) ^ 32 = 4294967296 := by norm_num
    rw [h2]; omega

theorem getD_set_zero (l : List Nat) : (l.set 0 0).getD 0 0 = 0 := by
  cases l <;> simp

theorem set_zero_self (l : List Nat) (h : l.getD 0 0 = 0) : l.set 0 0 = l := by
  cases l with
  | nil => rfl
  | cons x t => simp at h; simp [h]

theorem and_mem_size (x : Nat) : x &&& (MEM_SIZE - 1) = x % MEM_SIZE := by
  have h : MEM_SIZE = 2 ^ 16 := rfl
  rw [h, Nat.and_pow_two_sub_one_eq_mod]

theorem dispatch_steps (s : State) (op a b imm dst : Nat) :
    (dispatch s op a b imm dst).1.steps = s.steps := by
  unfold dispatch
  repeat' split
  all_goals rfl

theorem finish_state_reg0 (s1 : State) (adv : Bool) :
    (finish s1 adv).state.reg.getD 0 0 = 0 := by
  simp only [finish]
  split <;> exact getD_set_zero _

theorem finish_cont_steps (s1 : State) (adv : Bool) (s2 : State)
    (h : finish s1 adv = .cont s2) : s2.steps = s1.steps + 1 ∧ s2.steps ≤ STEP_LIMIT := by
  simp only [finish] at h
  split at h
  · cases h
  · rename_i hle
    cases h
    refine ⟨rfl, ?_⟩
    simp only [Nat.not_lt, gt_iff_lt] at hle
    simpa using hle

theorem finish_spec (s1 : State) (adv : Bool) :
    ∃ s2, (finish s1 adv = .cont s2 ∨ finish s1 adv = .limit s2) ∧
      s2.mem = s1.mem ∧ s2.reg = s1.reg.set 0 0 ∧ s2.steps = s1.steps + 1 ∧
      s2.pc = (if adv then (s1.pc + 1) &&& (MEM_SIZE - 1) else s1.pc) := by
  refine ⟨⟨s1.mem, s1.reg.set 0 0,
    if adv then (s1.pc + 1) &&& (MEM_SIZE - 1) else s1.pc, s1.steps + 1⟩,
    ?_, rfl, rfl, rfl, rfl⟩
  simp only [finish]
  split
  · exact Or.inr rfl
  · exact Or.inl rfl

/-- Claim C5: after every single executed simulator step the hardwired-zero
register reads 0, including steps whose instruction writes register 0 (add or
nand with destReg 0, lw with regB 0, jalr with regB 0) — the epilogue forces
`reg[0] = 0` before the step completes.  The `halted` outcome leaves the
state untouched (`op_halt` exits before the reset), so the register-0
invariant of the incoming state is required as hypothesis and is preserved
through all three outcomes. -/
theorem claim5_reg0_zero_after_step (s : State) (h0 : s.reg.getD 0 0 = 0) :
    (step s).state.reg.getD 0 0 = 0 := by
  simp only [step]
  split
  · simpa [StepResult.state] using h0
  · exact finish_state_reg0 _ _

theorem step_cont_steps (s s2 : State) (h : step s = .cont s2) :
    s2.steps = s.steps + 1 ∧ s2.steps ≤ STEP_LIMIT := by
  simp only [step] at h
  split at h
  · cases h
  · have := finish_cont_steps _ _ _ h
    rwa [dispatch_steps] at this

/-- Claim C7: every run from a loaded state (`steps = 0`) terminates: within
`STEP_LIMIT + 1 = 1000001` calls of `step` the loop reaches a terminal
outcome, which is either `halted` (success, from the halt instruction) or
`limit` (failure once the step counter exceeds 1000000) — two distinct
constructors.  Hence no run executes more than 1000001 steps and the
execution loop cannot run forever. -/
theorem claim7_run_terminates (s : State) (h : s.steps = 0) :
    ∃ s2, run (STEP_LIMIT + 1) s = .inl (.halted s2) ∨
      run (STEP_LIMIT + 1) s = .inl (.limit s2) := by
  have main : ∀ n s0, s0.steps ≤ STEP_LIMIT → STEP_LIMIT < s0.steps + n →
      ∃ s2, run n s0 = .inl (.halted s2) ∨ run n s0 = .inl (.limit s2) := by
    intro n
    induction n with
    | zero => intro s0 h1 h2; omega
    | succ n ih =>
      intro s0 h1 h2
      cases hstep : step s0 with
      | cont s3 =>
        have hc := step_cont_steps s0 s3 hstep
        rcases ih s3 hc.2 (by omega) with ⟨s2, h4⟩
        exact ⟨s2, by simpa [run, hstep] using h4⟩
      | halted s3 => exact ⟨s3, Or.inl (by simp [run, hstep])⟩
      | limit s3 => exact ⟨s3, Or.inr (by simp [run, hstep])⟩
  exact main (STEP_LIMIT + 1) s (by omega) (by omega)



/-- Claim C6: a simulator step whose fetched word decodes to opcode 4 (beq)
leaves memory and registers unchanged and sets the program counter to
`(pc + 1 + sign_extend16(offset)) mod 65536` when
`registers[regA] = registers[regB]` (no separate additional advance), and to
exactly `pc + 1` otherwise.  The hypotheses supply the fetched word, the
register-0 invariant (so the epilogue reset is the identity), and
`pc + 1 < 65536` so that the not-taken advance is literally `+ 1`. -/
theorem claim6_beq_step (s : State) (w : Nat)
    (hw : s.mem.getD s.pc 0 = w) (hop : decode_op w = 4)
    (h0 : s.reg.getD 0 0 = 0) (hpc : s.pc + 1 < MEM_SIZE) :
    ∃ s2 : State,
      (step s = .cont s2 ∨ step s = .limit s2) ∧
      s2.mem = s.mem ∧ s2.reg = s.reg ∧
      s2.pc = (if s.reg.getD (decode_a w) 0 = s.reg.getD (decode_b w) 0 then
        (((s.pc : Int) + 1 + sext16 (decode_imm w)).emod (MEM_SIZE : Int)).toNat
      else s.pc + 1) := by
  have hstep : step s =
      finish (dispatch s 4 (decode_a w) (decode_b w) (decode_imm w) (decode_dst w)).1
        (dispatch s 4 (decode_a w) (decode_b w) (decode_imm w) (decode_dst w)).2 := by
    simp only [step]
    rw [hw, hop, if_neg (by norm_num : ¬(4 : Nat) = 6)]
  by_cases heq : s.reg.getD (decode_a w) 0 = s.reg.getD (decode_b w) 0
  · have hd : dispatch s 4 (decode_a w) (decode_b w) (decode_imm w) (decode_dst w) =
        ({ s with pc := (((s.pc : Int) + 1 + sext16 (decode_imm w)).emod (MEM_SIZE : Int)).toNat },
          false) := by
      unfold dispatch
      rw [if_neg (by norm_num : ¬(4 : Nat) = 0), if_neg (by norm_num : ¬(4 : Nat) = 1),
        if_neg (by norm_num : ¬(4 : Nat) = 2), if_neg (by norm_num : ¬(4 : Nat) = 3),
        if_pos (rfl : (4 : Nat) = 4), if_pos heq]
    rw [hd] at hstep
    rcases finish_spec
        { s with pc := (((s.pc : Int) + 1 + sext16 (decode_imm w)).emod (MEM_SIZE : Int)).toNat }
        false with ⟨s2, hor, hmem, hreg, hsteps, hpc2⟩
    refine ⟨s2, ?_, ?_, ?_, ?_⟩
    · rw [hstep]; exact hor
    · exact hmem
    · rw [hreg]; exact set_zero_self _ h0
    · rw [hpc2, if_neg (by decide : ¬(false = true)), if_pos heq]
  · have hd : dispatch s 4 (decode_a w) (decode_b w) (decode_imm w) (decode_dst w) =
        (s, true) := by
      unfold dispatch
      rw [if_neg (by norm_num : ¬(4 : Nat) = 0), if_neg (by norm_num : ¬(4 : Nat) = 1),
        if_neg (by norm_num : ¬(4 : Nat) = 2), if_neg (by norm_num : ¬(4 : Nat) = 3),
        if_pos (rfl : (4 : Nat) = 4), if_neg heq]
    rw [hd] at hstep
    rcases finish_spec s true with ⟨s2, hor, hmem, hreg, hsteps, hpc2⟩
    refine ⟨s2, ?_, ?_, ?_, ?_⟩
    · rw [hstep]; exact hor
    · exact hmem
    · rw [hreg]; exact set_zero_self _ h0
    · rw [hpc2, if_pos (rfl : (true = true)), if_neg heq, and_mem_size]
      exact Nat.mod_eq_of_lt hpc



theorem and_mask32_lt (x : Nat) : x &&& MASK_32 < 2 ^ 32 :=
  lt_of_le_of_lt Nat.and_le_right (by norm_num [MASK_32])

theorem pyNand_lt (x y : Nat) : pyNand x y < 2 ^ 32 := by
  unfold pyNand
  have h1 : 0 ≤ (-((x &&& y : Nat) : Int) - 1).emod 0x100000000 :=
    Int.emod_nonneg _ (by norm_num)
  have h2 : (-((x &&& y : Nat) : Int) - 1).emod 0x100000000 < 0x100000000 :=
    Int.emod_lt_of_pos _ (by norm_num)
  have h3 : (2 : Nat) ^ 32 = 4294967296 := by norm_num
  omega

theorem emod_mem_lt (x : Int) : (x.emod (MEM_SIZE : Int)).toNat < MEM_SIZE := by
  have h1 : 0 ≤ x.emod (MEM_SIZE : Int) := Int.emod_nonneg _ (by decide)
  have h2 : x.emod (MEM_SIZE : Int) < (MEM_SIZE : Int) := Int.emod_lt_of_pos _ (by decide)
  omega

theorem getD_lt {l : List Nat} {B : Nat} (h : ∀ w ∈ l, w < B) (hB : 0 < B) (i : Nat) :
    l.getD i 0 < B := by
  rw [List.getD_eq_getElem?_getD]
  cases hx : l[i]? with
  | none => simpa using hB
  | some v => simpa using h v (List.getElem?_mem hx)

theorem forall_set {l : List Nat} {B v : Nat} (i : Nat) (h : ∀ w ∈ l, w < B) (hv : v < B) :
    ∀ w ∈ l.set i v, w < B := by
  intro w hw
  rcases List.mem_or_eq_of_mem_set hw with h2 | h2
  · exact h w h2
  · subst h2; exact hv

theorem and_memsize_lt (x : Nat) : x &&& (MEM_SIZE - 1) < MEM_SIZE := by
  rw [and_mem_size]
  exact Nat.mod_lt _ (by decide)

theorem finish_wf (s1 : State) (adv : Bool) (h : WF s1) : WF ((finish s1 adv).state) := by
  obtain ⟨h1, h2, h3, h4, h5⟩ := h
  have hwf4 : WF ⟨s1.mem, s1.reg.set 0 0,
      (if adv then (s1.pc + 1) &&& (MEM_SIZE - 1) else s1.pc), s1.steps + 1⟩ := by
    refine ⟨by simpa using h1, by simpa using h2, ?_, ?_, by simpa using h5⟩
    · dsimp only
      cases adv
      · simpa using h3
      · simpa using and_memsize_lt (s1.pc + 1)
    · dsimp only
      exact forall_set 0 h4 (by norm_num)
  simp only [finish]
  split
  · exact hwf4
  · exact hwf4

/-- Claim C10: machine-state well-formedness — memory of exactly 65536
words, 8 registers, program counter in `[0, 65536)` (so the fetch is in
bounds), and every register and memory word in `[0, 2 ^ 32)` — holds for the
state built by `load_mc` and is preserved by every simulator step (every
write is masked, including the nand result and the jalr link value). -/
theorem claim10_wf_invariant :
    (∀ (ws : List Int) (m : List Nat), load_mc ws = some m → WF (init_state m)) ∧
    (∀ s : State, WF s → WF ((step s).state)) := by
  constructor
  · intro ws m h
    simp only [load_mc] at h
    split at h
    · cases h
    · rename_i hlen
      cases h
      refine ⟨?_, by simp [init_state], by dsimp [init_state]; decide, ?_, ?_⟩
      · simp only [init_state, List.length_append, List.length_map, List.length_replicate]
        simp at hlen
        omega
      · intro w hw
        simp only [init_state] at hw
        rw [List.eq_of_mem_replicate hw]
        norm_num
      · intro w hw
        simp only [init_state] at hw
        rcases List.mem_append.1 hw with h2 | h2
        · rcases List.mem_map.1 h2 with ⟨x, _, hx⟩
          subst hx
          have ha : 0 ≤ x.emod 0x100000000 := Int.emod_nonneg _ (by norm_num)
          have hb : x.emod 0x100000000 < 0x100000000 := Int.emod_lt_of_pos _ (by norm_num)
          have h3 : (2 : Nat) ^ 32 = 4294967296 := by norm_num
          omega
        · rw [List.eq_of_mem_replicate h2]
          norm_num
  · intro s hwf
    obtain ⟨h1, h2, h3, h4, h5⟩ := hwf
    simp only [step]
    split
    · exact ⟨h1, h2, h3, h4, h5⟩
    · apply finish_wf
      unfold dispatch
      repeat' split
      all_goals first
        | exact ⟨h1, h2, h3, h4, h5⟩
        | exact ⟨h1, by simpa using h2, h3, forall_set _ h4 (and_mask32_lt _), h5⟩
        | exact ⟨h1, by simpa using h2, h3, forall_set _ h4 (pyNand_lt _ _), h5⟩
        | exact ⟨h1, by simpa using h2, h3, forall_set _ h4 (getD_lt h5 (by norm_num) _), h5⟩
        | exact ⟨by simpa using h1, h2, h3, h4, forall_set _ h5 (and_mask32_lt _)⟩
        | exact ⟨h1, h2, emod_mem_lt _, h4, h5⟩
        | exact ⟨h1, by simpa using h2, and_memsize_lt _, forall_set _ h4 (and_mask32_lt _), h5⟩



theorem lookup_append_some (xs ys : List (String × Nat)) (k : String) (v : Nat)
    (h : List.lookup k xs = some v) : List.lookup k (xs ++ ys) = some v := by
  rw [List.lookup_append, h]
  rfl

theorem lookup_append_none (xs ys : List (String × Nat)) (k : String)
    (h : List.lookup k xs = none) : List.lookup k (xs ++ ys) = List.lookup k ys := by
  rw [List.lookup_append, h]
  rfl

theorem lookup_of_append_none (xs ys : List (String × Nat)) (k : String)
    (h : List.lookup k (xs ++ ys) = none) : List.lookup k xs = none := by
  rw [List.lookup_append] at h
  cases hx : List.lookup k xs with
  | none => rfl
  | some v => rw [hx] at h; simp at h

theorem buildSymsFrom_cons_none (pc : Nat) (symbols : List (String × Nat)) (l : Line)
    (ls : List Line) (h : l.label = none) :
    buildSymsFrom pc symbols (l :: ls) = buildSymsFrom (pc + 1) symbols ls := by
  simp [buildSymsFrom, h]

theorem buildSymsFrom_cons_some (pc : Nat) (symbols : List (String × Nat)) (l : Line)
    (ls : List Line) (lab : String) (h : l.label = some lab) :
    buildSymsFrom pc symbols (l :: ls) =
      if (List.lookup lab symbols).isSome then
        .error ⟨(l.lineno : Int), "Duplicate label " ++ lab, l.raw⟩
      else buildSymsFrom (pc + 1) (symbols ++ [(lab, pc)]) ls := by
  simp [buildSymsFrom, h]

theorem buildSyms_mono (ls : List Line) (pc : Nat) (symbols out : List (String × Nat))
    (h : buildSymsFrom pc symbols ls = .ok out) (k : String) (v : Nat)
    (hk : List.lookup k symbols = some v) : List.lookup k out = some v := by
  induction ls generalizing pc symbols with
  | nil => simp only [buildSymsFrom] at h; cases h; exact hk
  | cons l ls ih =>
    cases hl : l.label with
    | none =>
      rw [buildSymsFrom_cons_none _ _ _ _ hl] at h
      exact ih _ _ h hk
    | some lab =>
      rw [buildSymsFrom_cons_some _ _ _ _ _ hl] at h
      split at h
      · cases h
      · exact ih _ _ h (lookup_append_some _ _ _ _ hk)

theorem buildSyms_fresh (ls : List Line) (pc : Nat) (symbols out : List (String × Nat))
    (h : buildSymsFrom pc symbols ls = .ok out) (j : Nat) (hj : j < ls.length) (lab : String)
    (hlab : (ls.get ⟨j, hj⟩).label = some lab) : List.lookup lab symbols = none := by
  induction ls generalizing pc symbols j with
  | nil => simp at hj
  | cons l ls ih =>
    cases j with
    | zero =>
      have hl : l.label = some lab := hlab
      rw [buildSymsFrom_cons_some _ _ _ _ _ hl] at h
      split at h
      · cases h
      · rename_i hnot
        cases hx : List.lookup lab symbols with
        | none => rfl
        | some v => rw [hx] at hnot; simp at hnot
    | succ j2 =>
      have hj2 : j2 < ls.length := by simpa using hj
      have hlab2 : (ls.get ⟨j2, hj2⟩).label = some lab := by simpa using hlab
      cases hl : l.label with
      | none =>
        rw [buildSymsFrom_cons_none _ _ _ _ hl] at h
        exact ih _ _ h j2 hj2 hlab2
      | some lab0 =>
        rw [buildSymsFrom_cons_some _ _ _ _ _ hl] at h
        split at h
        · cases h
        · exact lookup_of_append_none _ _ _ (ih _ _ h j2 hj2 hlab2)

theorem buildSyms_lookup (ls : List Line) (pc : Nat) (symbols out : List (String × Nat))
    (h : buildSymsFrom pc symbols ls = .ok out) (j : Nat) (hj : j < ls.length) (lab : String)
    (hlab : (ls.get ⟨j, hj⟩).label = some lab) : List.lookup lab out = some (pc + j) := by
  induction ls generalizing pc symbols j with
  | nil => simp at hj
  | cons l ls ih =>
    cases j with
    | zero =>
      have hl : l.label = some lab := hlab
      rw [buildSymsFrom_cons_some _ _ _ _ _ hl] at h
      split at h
      · cases h
      · rename_i hnot
        have hfresh : List.lookup lab symbols = none := by
          cases hx : List.lookup lab symbols with
          | none => rfl
          | some v => rw [hx] at hnot; simp at hnot
        have hsym2 : List.lookup lab (symbols ++ [(lab, pc)]) = some pc := by
          rw [lookup_append_none _ _ _ hfresh]
          simp
        simpa using buildSyms_mono ls (pc + 1) _ out h lab pc hsym2
    | succ j2 =>
      have hj2 : j2 < ls.length := by simpa using hj
      have hlab2 : (ls.get ⟨j2, hj2⟩).label = some lab := by simpa using hlab
      have harith : pc + 1 + j2 = pc + (j2 + 1) := by omega
      cases hl : l.label with
      | none =>
        rw [buildSymsFrom_cons_none _ _ _ _ hl] at h
        have := ih _ _ h j2 hj2 hlab2
        rwa [harith] at this
      | some lab0 =>
        rw [buildSymsFrom_cons_some _ _ _ _ _ hl] at h
        split at h
        · cases h
        · have := ih _ _ h j2 hj2 hlab2
          rwa [harith] at this

theorem buildSyms_nodup (ls : List Line) (pc : Nat) (symbols out : List (String × Nat))
    (h : buildSymsFrom pc symbols ls = .ok out) (i j : Nat) (hi : i < ls.length)
    (hj : j < ls.length) (hij : i < j) (lab : String)
    (h1 : (ls.get ⟨i, hi⟩).label = some lab) : (ls.get ⟨j, hj⟩).label ≠ some lab := by
  induction ls generalizing pc symbols i j with
  | nil => simp at hi
  | cons l ls ih =>
    cases i with
    | zero =>
      have hl : l.label = some lab := h1
      rw [buildSymsFrom_cons_some _ _ _ _ _ hl] at h
      split at h
      · cases h
      · rename_i hnot
        intro hcon
        cases j with
        | zero => omega
        | succ j2 =>
          have hj2 : j2 < ls.length := by simpa using hj
          have hfresh := buildSyms_fresh ls (pc + 1) _ out h j2 hj2 lab
            (by simpa using hcon)
          have hnone : List.lookup lab symbols = none := by
            cases hx : List.lookup lab symbols with
            | none => rfl
            | some v => rw [hx] at hnot; simp at hnot
          rw [lookup_append_none _ _ _ hnone] at hfresh
          simp at hfresh
    | succ i2 =>
      cases j with
      | zero => omega
      | succ j2 =>
        have hi2 : i2 < ls.length := by simpa using hi
        have hj2 : j2 < ls.length := by simpa using hj
        cases hl : l.label with
        | none =>
          rw [buildSymsFrom_cons_none _ _ _ _ hl] at h
          have := ih _ _ h i2 j2 hi2 hj2 (by omega) (by simpa using h1)
          simpa using this
        | some lab0 =>
          rw [buildSymsFrom_cons_some _ _ _ _ _ hl] at h
          split at h
          · cases h
          · have := ih _ _ h i2 j2 hi2 hj2 (by omega) (by simpa using h1)
            simpa using this

theorem buildSyms_error (ls : List Line) (pc : Nat) (symbols : List (String × Nat))
    (e : AsmError) (h : buildSymsFrom pc symbols ls = .error e) :
    ∃ (j : Nat) (hj : j < ls.length) (lab : String),
      (ls.get ⟨j, hj⟩).label = some lab ∧
      ((List.lookup lab symbols).isSome = true ∨
        ∃ (i : Nat) (hi : i < ls.length), i < j ∧ (ls.get ⟨i, hi⟩).label = some lab) := by
  induction ls generalizing pc symbols with
  | nil => simp only [buildSymsFrom] at h; cases h
  | cons l ls ih =>
    cases hl : l.label with
    | none =>
      rw [buildSymsFrom_cons_none _ _ _ _ hl] at h
      obtain ⟨j, hj, lab, hlab, hrest⟩ := ih _ _ h
      refine ⟨j + 1, by simpa using hj, lab, by simpa using hlab, ?_⟩
      rcases hrest with hs | ⟨i, hi, hij, hilab⟩
      · exact Or.inl hs
      · exact Or.inr ⟨i + 1, by simpa using hi, by omega, by simpa using hilab⟩
    | some lab =>
      rw [buildSymsFrom_cons_some _ _ _ _ _ hl] at h
      split at h
      · rename_i hsome
        exact ⟨0, by simp, lab, hl, Or.inl hsome⟩
      · rename_i hnot
        have hnone : List.lookup lab symbols = none := by
          cases hx : List.lookup lab symbols with
          | none => rfl
          | some v => rw [hx] at hnot; simp at hnot
        obtain ⟨j, hj, lab2, hlab2, hrest⟩ := ih _ _ h
        refine ⟨j + 1, by simpa using hj, lab2, by simpa using hlab2, ?_⟩
        rcases hrest with hs | ⟨i, hi, hij, hilab⟩
        · cases hx : List.lookup lab2 symbols with
          | some v => exact Or.inl (by simp [hx])
          | none =>
            rw [lookup_append_none symbols [(lab, pc)] lab2 hx] at hs
            have heq : lab2 = lab := by
              by_contra hq
              have hbeq : (lab2 == lab) = false := by simp [hq]
              simp [List.lookup, hbeq] at hs
            subst heq
            exact Or.inr ⟨0, by simp, by omega, hl⟩
        · exact Or.inr ⟨i + 1, by simpa using hi, by omega, by simpa using hilab⟩

/-- Claim C8: a successful symbol-table build maps each label to the 0-based
positional index of its line among all emitted words (forward references
included), and the build fails (with the duplicate-label error, the only
error raised in pass 1) exactly when some label is defined on two different
lines, wherever the duplicate occurs. -/
theorem claim8_symbol_table :
    (∀ (lines : List Line) (syms : List (String × Nat)),
      build_symbol_table lines = .ok syms →
      ∀ (i : Nat) (hi : i < lines.length) (lab : String),
        (lines.get ⟨i, hi⟩).label = some lab → List.lookup lab syms = some i) ∧
    (∀ lines : List Line,
      (∃ e, build_symbol_table lines = .error e) ↔ hasDupLabel lines) := by
  constructor
  · intro lines syms h i hi lab hlab
    simpa using buildSyms_lookup lines 0 [] syms h i hi lab hlab
  · intro lines
    constructor
    · rintro ⟨e, he⟩
      obtain ⟨j, hj, lab, hlab, hrest⟩ := buildSyms_error lines 0 [] e he
      rcases hrest with hs | ⟨i, hi, hij, hilab⟩
      · simp at hs
      · exact ⟨i, j, hi, hj, lab, by omega, hilab, hlab⟩
    · rintro ⟨i, j, hi, hj, lab, hij, h1, h2⟩
      cases hres : build_symbol_table lines with
      | error e => exact ⟨e, rfl⟩
      | ok syms =>
        rcases Nat.lt_or_ge i j with hlt | hge
        · exact absurd h2 (buildSyms_nodup lines 0 [] syms hres i j hi hj hlt lab h1)
        · have hlt2 : j < i := by omega
          exact absurd h1 (buildSyms_nodup lines 0 [] syms hres j i hj hi hlt2 lab h2)

/-- The `encode` loop relates positionally: a successful encode produces one
word per line, the word at index `i` being `encodeLine` of the line at index
`i` at word address `pc + i`. -/
theorem encodeFrom_ok_spec (ls : List Line) (pc : Nat)
    (symbols : List (String × Nat)) (ws : List Int)
    (h : encodeFrom pc ls symbols = .ok ws) :
    ws.length = ls.length ∧
    ∀ i (hi : i < ls.length) (hw : i < ws.length),
      encodeLine (pc + i) (ls.get ⟨i, hi⟩) symbols = .ok (ws.get ⟨i, hw⟩) := by
  induction ls generalizing pc ws with
  | nil =>
    simp only [encodeFrom] at h
    cases h
    exact ⟨rfl, by intro i hi; simp at hi⟩
  | cons l ls ih =>
    unfold encodeFrom at h
    cases h1 : encodeLine pc l symbols with
    | error e => rw [h1] at h; cases h
    | ok w =>
      rw [h1] at h
      cases h2 : encodeFrom (pc + 1) ls symbols with
      | error e => rw [h2] at h; cases h
      | ok ws2 =>
        rw [h2] at h
        cases h
        have IH := ih (pc + 1) ws2 h2
        refine ⟨by simp [IH.1], ?_⟩
        intro i hi hw
        cases i with
        | zero => simpa using h1
        | succ j =>
          have hj : j < ls.length := by simpa using hi
          have hjw : j < ws2.length := by simpa using hw
          have := IH.2 j hj hjw
          have harith : pc + 1 + j = pc + (j + 1) := by omega
          rw [harith] at this
          simpa using this

/-- Every successful word of a non-`.fill` line went through the final
`&& MASK_32`, hence lies in `[0, 2 ^ 32)`. -/
theorem encodeLine_not_fill_range (pc : Nat) (line : Line)
    (symbols : List (String × Nat)) (w : Int)
    (hfill : line.opcode ≠ ".fill") (h : encodeLine pc line symbols = .ok w) :
    0 ≤ w ∧ w < 2 ^ 32 := by
  unfold encodeLine at h
  rw [if_neg hfill] at h
  repeat' split at h
  all_goals (try cases h)
  all_goals exact masked_word_range _

/-- A successful `.fill` word is exactly the raw `resolve_value` result, with
no masking. -/
theorem encodeLine_fill_raw (pc : Nat) (line : Line)
    (symbols : List (String × Nat)) (w : Int)
    (hfill : line.opcode = ".fill") (h : encodeLine pc line symbols = .ok w) :
    resolve_value (line.args.getD 0 "") symbols = .ok w := by
  unfold encodeLine at h
  rw [if_pos hfill] at h
  repeat' split at h
  all_goals (try cases h)
  · assumption

theorem check_argc_error_ctx (line : Line) (n : Nat) (e : AsmError)
    (h : check_argc line n = .error e) :
    e.lineno = (line.lineno : Int) ∧ e.line = line.raw := by
  unfold check_argc at h
  split at h
  · cases h
  · cases h; exact ⟨rfl, rfl⟩

theorem int_reg_error_ctx (token : String) (e : AsmError)
    (h : int_reg token = .error e) : e.lineno = -1 ∧ e.line = "" := by
  simp only [int_reg] at h
  split at h
  · cases h; exact ⟨rfl, rfl⟩
  · split at h
    · cases h
    · cases h; exact ⟨rfl, rfl⟩

theorem resolve_value_error_ctx (token : String) (symbols : List (String × Nat))
    (al : Bool) (e : AsmError) (h : resolve_value token symbols al = .error e) :
    e.lineno = -1 ∧ e.line = "" := by
  unfold resolve_value at h
  split at h
  · cases h
  · split at h
    · cases h
    · cases h; exact ⟨rfl, rfl⟩

/-- Claim C9 (amended): every error raised by `encodeLine` either carries
the 0-based index of the offending line (rendered 1-based as `lineno + 1`)
together with its raw source text — the unknown-opcode, argument-count and
offset-range errors — or carries line index `-1` and empty text, which is
what every `InvalidRegisterError` (from `int_reg`) and every
`UndefinedSymbolError` (from `resolve_value`) carries. -/
theorem claim9_error_context :
    (∀ (pc : Nat) (line : Line) (symbols : List (String × Nat)) (e : AsmError),
      encodeLine pc line symbols = .error e →
      (e.lineno = (line.lineno : Int) ∧ e.line = line.raw) ∨
      (e.lineno = -1 ∧ e.line = "")) ∧
    (∀ (token : String) (e : AsmError), int_reg token = .error e →
      e.lineno = -1 ∧ e.line = "") ∧
    (∀ (token : String) (symbols : List (String × Nat)) (al : Bool) (e : AsmError),
      resolve_value token symbols al = .error e → e.lineno = -1 ∧ e.line = "") := by
  refine ⟨?_, int_reg_error_ctx, resolve_value_error_ctx⟩
  intro pc line symbols e h
  unfold encodeLine at h
  repeat' split at h
  all_goals (try cases h)
  all_goals (try (first
    | exact Or.inl ⟨rfl, rfl⟩
    | exact Or.inl (check_argc_error_ctx _ _ _ (by assumption))
    | exact Or.inr (int_reg_error_ctx _ _ (by assumption))
    | exact Or.inr (resolve_value_error_ctx _ _ _ _ (by assumption))))
  all_goals (rename_i heq; split at heq)
  all_goals (try cases heq)
  all_goals exact Or.inr (resolve_value_error_ctx _ _ _ _ (by assumption))

/-- Claim C3 (amended): in a successful assembly every word emitted for a
non-`.fill` line lies in `[0, 2 ^ 32)` (it passes through the final
`& MASK_32`), while a `.fill` line emits the raw `resolve_value` result
unmasked — a negative operand yields a negative word, with no
twos-complement truncation at this stage (truncation happens at simulator
load, cf. `load_mc`). -/
theorem claim3_word_ranges (lines : List Line) (symbols : List (String × Nat))
    (ws : List Int) (h : encode lines symbols = .ok ws) :
    ws.length = lines.length ∧
    ∀ (i : Nat) (hi : i < lines.length) (hw : i < ws.length),
      ((lines.get ⟨i, hi⟩).opcode ≠ ".fill" →
        0 ≤ ws.get ⟨i, hw⟩ ∧ ws.get ⟨i, hw⟩ < 2 ^ 32) ∧
      ((lines.get ⟨i, hi⟩).opcode = ".fill" →
        resolve_value ((lines.get ⟨i, hi⟩).args.getD 0 "") symbols =
          .ok (ws.get ⟨i, hw⟩)) := by
  have spec := encodeFrom_ok_spec lines 0 symbols ws h
  refine ⟨spec.1, ?_⟩
  intro i hi hw
  have hl := spec.2 i hi hw
  rw [Nat.zero_add] at hl
  exact ⟨fun hf => encodeLine_not_fill_range _ _ _ _ hf hl,
    fun hf => encodeLine_fill_raw _ _ _ _ hf hl⟩


/-- Claim C4: for a `beq` line with valid register tokens, when the third
operand is a label in the symbol table the encoded offset is
`label_address - (current_address + 1)`; otherwise the operand is used
directly as a literal offset (`resolve_value` without labels).  In both cases
the line encodes successfully exactly when the offset lies in
`[-32768, 32767]`, and otherwise raises the branch-range error. -/
theorem claim4_beq_offset_encoding (pc ln : Nat) (lbl : Option String)
    (raw a b t : String) (symbols : List (String × Nat)) (rA rB : Nat)
    (ha : int_reg a = .ok rA) (hb : int_reg b = .ok rB) :
    (∀ addr : Nat, List.lookup t symbols = some addr →
      encodeLine pc ⟨ln, lbl, "beq", [a, b, t], raw⟩ symbols =
        (if -32768 ≤ (addr : Int) - ((pc : Int) + 1) ∧
            (addr : Int) - ((pc : Int) + 1) < 32768 then
          .ok ((packR 4 rA rB ((((addr : Int) - ((pc : Int) + 1)).emod 0x10000).toNat) &&&
            MASK_32 : Nat) : Int)
        else .error ⟨(ln : Int), "branch offset out of 16-bit range", raw⟩)) ∧
    (List.lookup t symbols = none →
      ∀ v : Int, resolve_value t symbols = .ok v →
        encodeLine pc ⟨ln, lbl, "beq", [a, b, t], raw⟩ symbols =
          (if -32768 ≤ v ∧ v < 32768 then
            .ok ((packR 4 rA rB ((v.emod 0x10000).toNat) &&& MASK_32 : Nat) : Int)
          else .error ⟨(ln : Int), "branch offset out of 16-bit range", raw⟩)) := by
  have hop : List.lookup "beq" OPCODES = some 4 := rfl
  constructor
  · intro addr hsym
    simp [encodeLine, check_argc, ha, hb, hsym, max16_half, hop]
  · intro hsym v hv
    simp [encodeLine, check_argc, ha, hb, hsym, hv, max16_half, hop]

/-- Witness for C4 at both boundary offsets: a label at address 32768 from
line 0 gives offset 32767 and is accepted; a label at address 32769 gives
offset 32768 and is rejected with the range error. -/
theorem claim4_beq_offset_encoding_witness :
    encodeLine 0 ⟨0, none, "beq", ["0", "0", "L"], "beq 0 0 L"⟩ [("L", 32768)] =
      .ok ((packR 4 0 0 32767 &&& MASK_32 : Nat) : Int) ∧
    encodeLine 0 ⟨0, none, "beq", ["0", "0", "M"], "beq 0 0 M"⟩ [("M", 32769)] =
      .error ⟨0, "branch offset out of 16-bit range", "beq 0 0 M"⟩ := by
  constructor
  · have h := (claim4_beq_offset_encoding 0 0 none "beq 0 0 L" "0" "0" "L"
      [("L", 32768)] 0 0 rfl rfl).1 32768 rfl
    exact h.trans (by rfl)
  · have h := (claim4_beq_offset_encoding 0 0 none "beq 0 0 M" "0" "0" "M"
      [("M", 32769)] 0 0 rfl rfl).1 32769 rfl
    exact h.trans (by rfl)

/-- Claim C2 (failing input): the program `.fill done` / `done halt` builds a
symbol table defining `done` at address 1, yet encoding the `.fill` line
raises the undefined-symbol error, because the `.fill` branch calls
`resolve_value` without `allow_label=True` and so never consults the table. -/
theorem claim2_fill_defined_label_rejected :
    build_symbol_table
      [⟨0, none, ".fill", ["done"], ".fill done"⟩,
       ⟨1, some "done", "halt", [], "done halt"⟩] = .ok [("done", 1)] ∧
    encode
      [⟨0, none, ".fill", ["done"], ".fill done"⟩,
       ⟨1, some "done", "halt", [], "done halt"⟩] [("done", 1)] =
      .error ⟨-1, "Undefined symbol done", ""⟩ := ⟨rfl, rfl⟩

/-- Counterexample to C3 as stated: the program `.fill -1` assembles
successfully, and its single emitted word is `-1`, which does not lie in
`[0, 2 ^ 32)` — the `.fill` word is not truncated to twos-complement form
at assembly time. -/
theorem claim3_fill_word_not_masked_cex :
    encode [⟨0, none, ".fill", ["-1"], ".fill -1"⟩] [] = .ok [-1] ∧
    ¬(0 ≤ (-1 : Int) ∧ (-1 : Int) < 2 ^ 32) := ⟨rfl, by decide⟩

/-- Witness for C3 (amended): the single-line program `halt` encodes to the
word 25165824, which lies in `[0, 2 ^ 32)`. -/
theorem claim3_word_ranges_witness :
    0 ≤ (25165824 : Int) ∧ (25165824 : Int) < 2 ^ 32 := by
  have h := claim3_word_ranges [⟨0, none, "halt", [], "halt"⟩] [] [25165824] rfl
  exact (h.2 0 (by decide) (by decide)).1 (by decide)

/-- Counterexample to C9 as stated: an invalid register token `x` on source
line index 4 (1-based line 5) aborts assembly with an `AsmError` carrying
line index `-1` (rendered as `Line 0`) and empty source text, so neither the
1-based line number nor the offending text of the real line is reported. -/
theorem claim9_error_reporting_cex :
    encode [⟨4, none, "add", ["x", "0", "1"], "add x 0 1"⟩] [] =
      .error ⟨-1, "Register id must be numeric: x", ""⟩ ∧
    (-1 : Int) + 1 ≠ 5 ∧ "" ≠ "add x 0 1" :=
  ⟨rfl, by decide, by decide⟩

/-- Witness for C9 (amended), at the unknown-opcode error of the one-line
program `foo`: the raised error carries the line index 0 and the raw text. -/
theorem claim9_error_context_witness :
    ((0 : Int) = ((0 : Nat) : Int) ∧ "foo" = "foo") ∨
    ((0 : Int) = -1 ∧ "foo" = "") :=
  claim9_error_context.1 0 ⟨0, none, "foo", [], "foo"⟩ []
    ⟨0, "Unknown opcode foo", "foo"⟩ rfl

/-- Witness for C5: one step from a well-formed zero state keeps register 0
at zero. -/
theorem claim5_reg0_zero_after_step_witness :
    (step ⟨[1], [0, 0, 0, 0, 0, 0, 0, 0], 0, 0⟩).state.reg.getD 0 0 = 0 :=
  claim5_reg0_zero_after_step ⟨[1], [0, 0, 0, 0, 0, 0, 0, 0], 0, 0⟩ rfl

/-- Witness for C6 at a concrete taken branch: memory holds the single word
`beq 0 0 1`, all registers are zero. -/
theorem claim6_beq_step_witness :
    ∃ s2 : State,
      (step ⟨[(4 <<< 22) ||| 1, 0], [0, 0, 0, 0, 0, 0, 0, 0], 0, 0⟩ = .cont s2 ∨
        step ⟨[(4 <<< 22) ||| 1, 0], [0, 0, 0, 0, 0, 0, 0, 0], 0, 0⟩ = .limit s2) ∧
      s2.mem = [(4 <<< 22) ||| 1, 0] ∧ s2.reg = [0, 0, 0, 0, 0, 0, 0, 0] ∧
      s2.pc = (if ([0, 0, 0, 0, 0, 0, 0, 0] : List Nat).getD
          (decode_a ((4 <<< 22) ||| 1)) 0 =
          ([0, 0, 0, 0, 0, 0, 0, 0] : List Nat).getD (decode_b ((4 <<< 22) ||| 1)) 0 then
        (((0 : Nat) + 1 + sext16 (decode_imm ((4 <<< 22) ||| 1))).emod
          (MEM_SIZE : Int)).toNat
      else (0 : Nat) + 1) :=
  claim6_beq_step ⟨[(4 <<< 22) ||| 1, 0], [0, 0, 0, 0, 0, 0, 0, 0], 0, 0⟩
    ((4 <<< 22) ||| 1) rfl (by decide) rfl (by decide)

/-- Witness for C7 at the empty machine (memory all zero after `getD`): the
run from step count 0 terminates within the bound. -/
theorem claim7_run_terminates_witness :
    ∃ s2, run (STEP_LIMIT + 1) (⟨[], [], 0, 0⟩ : State) = .inl (.halted s2) ∨
      run (STEP_LIMIT + 1) (⟨[], [], 0, 0⟩ : State) = .inl (.limit s2) :=
  claim7_run_terminates ⟨[], [], 0, 0⟩ rfl

/-- Witness for C8: the one-line program `L halt` maps `L` to address 0. -/
theorem claim8_symbol_table_witness :
    build_symbol_table [⟨0, some "L", "halt", [], "L halt"⟩] = .ok [("L", 0)] ∧
    List.lookup "L" [("L", 0)] = some 0 :=
  ⟨rfl, claim8_symbol_table.1 [⟨0, some "L", "halt", [], "L halt"⟩] [("L", 0)]
    rfl 0 (by decide) "L" rfl⟩

/-- Witness for C10: loading the empty program yields a well-formed state,
preserved by one step. -/
theorem claim10_wf_invariant_witness :
    WF (init_state (List.replicate MEM_SIZE 0)) ∧
    WF ((step (init_state (List.replicate MEM_SIZE 0))).state) :=
  ⟨claim10_wf_invariant.1 [] (List.replicate MEM_SIZE 0) rfl,
   claim10_wf_invariant.2 (init_state (List.replicate MEM_SIZE 0))
     (claim10_wf_invariant.1 [] (List.replicate MEM_SIZE 0) rfl)⟩

end MicroSim
